import Mathlib

/-!
# pi_calculator: a verification development

Shallow embedding of `src/pi_calculator.c`.  Values of type `double` are
embedded as exact rationals (`ℚ`), `int` and `long long` variables as `Int`
(with an explicit wrap-around where a conversion can overflow), C strings as
lists of characters, and every `for` loop as a fuel-bounded recursion that
re-checks the loop condition of the source at every step.
-/

namespace PiCalculator

/-! ## calculate_pi_leibniz (source lines 7-17) -/

/-- Local variables of `calculate_pi_leibniz`: the counter `i`, the
accumulator `pi` and the toggled `sign`. -/
structure LeibnizState where
  i : Int
  pi : ℚ
  sign : Int

/-- State on loop entry: `pi = 0.0`, `sign = 1`, `i = 0`. -/
def leibnizInit : LeibnizState := { i := 0, pi := 0, sign := 1 }

/-- One pass through the loop: `pi += sign * (1.0 / (2 * i + 1)); sign *= -1;`
followed by `i++`. -/
def leibnizBody (s : LeibnizState) : LeibnizState :=
  { i := s.i + 1
    pi := s.pi + (s.sign : ℚ) * (1 / ((2 * s.i + 1 : Int) : ℚ))
    sign := s.sign * -1 }

/-- The loop `for (i = 0; i < iterations; i++)`: at most `fuel` passes, each
one guarded by the source condition `i < iterations`. -/
def leibnizLoop (iterations : Int) : Nat → LeibnizState → LeibnizState
  | 0, s => s
  | fuel + 1, s =>
    if s.i < iterations then leibnizLoop iterations fuel (leibnizBody s) else s

/-- Embedding of `calculate_pi_leibniz`: run the loop to completion and
return `pi * 4`. -/
def calculate_pi_leibniz (iterations : Int) : ℚ :=
  (leibnizLoop iterations iterations.toNat leibnizInit).pi * 4

/-! ## calculate_pi_monte_carlo (source lines 20-36) -/

/-- The expression `(double)rand() / RAND_MAX * 2.0 - 1.0` for a raw draw `r`
returned by `rand()`; `RAND_MAX` is the constant of `stdlib.h`. -/
def coordinate (RAND_MAX : Nat) (r : Nat) : ℚ :=
  (r : ℚ) / (RAND_MAX : ℚ) * 2 - 1

/-- Local variables of `calculate_pi_monte_carlo`: the counter `i`, the
counter `inside_circle`, and the number `drawn` of calls made to `rand()`
since `srand`. -/
structure MonteCarloState where
  i : Int
  inside_circle : Int
  drawn : Nat

/-- State on loop entry: `inside_circle = 0`, `i = 0`, no draw consumed. -/
def monteCarloInit : MonteCarloState := { i := 0, inside_circle := 0, drawn := 0 }

/-- One pass through the loop.  `draws k` is the value of the `k`-th call to
`rand()` after `srand((unsigned int)time(NULL))`; `x` takes the first call of
the pass and `y` the second. -/
def monteCarloBody (RAND_MAX : Nat) (draws : Nat → Nat) (s : MonteCarloState) :
    MonteCarloState :=
  let x := coordinate RAND_MAX (draws s.drawn)
  let y := coordinate RAND_MAX (draws (s.drawn + 1))
  { i := s.i + 1
    inside_circle := if x * x + y * y ≤ 1 then s.inside_circle + 1 else s.inside_circle
    drawn := s.drawn + 2 }

/-- The loop `for (i = 0; i < iterations; i++)` of `calculate_pi_monte_carlo`. -/
def monteCarloLoop (RAND_MAX : Nat) (draws : Nat → Nat) (iterations : Int) :
    Nat → MonteCarloState → MonteCarloState
  | 0, s => s
  | fuel + 1, s =>
    if s.i < iterations then
      monteCarloLoop RAND_MAX draws iterations fuel (monteCarloBody RAND_MAX draws s)
    else s

/-- Embedding of `calculate_pi_monte_carlo`: `4.0 * inside_circle / iterations`
after the loop.  (Division by zero is `0` in `ℚ`; the C program yields NaN.) -/
def calculate_pi_monte_carlo (RAND_MAX : Nat) (draws : Nat → Nat) (iterations : Int) : ℚ :=
  4 * ((monteCarloLoop RAND_MAX draws iterations iterations.toNat monteCarloInit).inside_circle : ℚ)
    / (iterations : ℚ)

/-- Number of the first `N` trials that fall inside the closed unit disc,
trial `k` taking `x` from draw `2k` and `y` from draw `2k+1`. -/
def insideCount (RAND_MAX : Nat) (draws : Nat → Nat) (N : Nat) : Nat :=
  ((Finset.range N).filter fun k =>
    coordinate RAND_MAX (draws (2 * k)) ^ 2 + coordinate RAND_MAX (draws (2 * k + 1)) ^ 2 ≤ 1).card

/-! ## calculate_pi_machin (source lines 39-72) -/

/-- Conversion of an integer value to `long long`, out-of-range values
wrapping around modulo `2^64` into `[-2^63, 2^63)`. -/
def toLongLong (x : Int) : Int :=
  (x + 2 ^ 63) % 2 ^ 64 - 2 ^ 63

/-- The library call `pow(10, e)` for an `int` exponent, computed exactly. -/
def pow10 (e : Int) : ℚ :=
  (10 : ℚ) ^ e

/-- The cast `(long long)d`: truncation towards zero, then `toLongLong`. -/
def castLongLong (d : ℚ) : Int :=
  toLongLong (if 0 ≤ d then ⌊d⌋ else ⌈d⌉)

/-- The constant `1e-15` of the loop conditions, taken as exactly `10^-15`. -/
def cutoff : ℚ :=
  1 / 10 ^ 15

/-- Local variables of one arctangent loop of `calculate_pi_machin`: the
counter `i`, the accumulator (`arctan_1_5` or `arctan_1_239`) and `term`. -/
structure ArctanState where
  i : Int
  acc : ℚ
  term : ℚ

/-- State on entry of an arctangent loop started with `term = x`. -/
def arctanInit (x : ℚ) : ArctanState := { i := 0, acc := 0, term := x }

/-- One pass through an arctangent loop: add `term / (2 * i + 1)` when
`i % 2 == 0`, subtract it otherwise, then `term *= factor` and `i++`.
(`i` is never negative here, so the remainder is tested with `%` of `Int`.) -/
def arctanBody (factor : ℚ) (s : ArctanState) : ArctanState :=
  { i := s.i + 1
    acc :=
      if s.i % 2 = 0 then s.acc + s.term / ((2 * s.i + 1 : Int) : ℚ)
      else s.acc - s.term / ((2 * s.i + 1 : Int) : ℚ)
    term := s.term * factor }

/-- The loop `for (i = 0; i < iterations && fabs(term) > 1e-15; i++)`. -/
def arctanLoop (factor : ℚ) (iterations : Int) : Nat → ArctanState → ArctanState
  | 0, s => s
  | fuel + 1, s =>
    if s.i < iterations ∧ |s.term| > cutoff then
      arctanLoop factor iterations fuel (arctanBody factor s)
    else s

/-- Embedding of `calculate_pi_machin`. -/
def calculate_pi_machin (precision : Int) : ℚ :=
  let iterations := castLongLong (pow10 (precision + 2))
  let arctan_1_5 :=
    (arctanLoop (1 / 25) iterations iterations.toNat (arctanInit (1 / 5))).acc
  let arctan_1_239 :=
    (arctanLoop (1 / (239 * 239)) iterations iterations.toNat (arctanInit (1 / 239))).acc
  4 * (4 * arctan_1_5 - arctan_1_239)

/-- Partial sum of the Taylor series of the arctangent at `x`, first `k` terms:
`Σ_{j<k} (-1)^j x^(2j+1) / (2j+1)`. -/
def arctanSeries (x : ℚ) (k : Nat) : ℚ :=
  ∑ j in Finset.range k, (-1 : ℚ) ^ j * x ^ (2 * j + 1) / (2 * (j : ℚ) + 1)

/-- Search for the first index `j ≥ i` with `x^(2j+1) ≤ 10^-15`, giving up
(and returning the index reached) after `fuel` indices. -/
def stopIndexFrom (x : ℚ) : Nat → Nat → Nat
  | 0, i => i
  | fuel + 1, i => if x ^ (2 * i + 1) ≤ cutoff then i else stopIndexFrom x fuel (i + 1)

/-- The number `k(x)` of terms summed: the smaller of `N` and the least `i`
with `x^(2i+1) ≤ 10^-15`. -/
def stopIndex (x : ℚ) (N : Nat) : Nat :=
  stopIndexFrom x N 0

/-- The value `4 * (4 * A(1/5) - A(1/239))` with `N = 10^(P+2)` and
`A(x) = Σ_{i<k(x)} (-1)^i x^(2i+1) / (2i+1)`. -/
def machinFormula (P : Int) : ℚ :=
  4 * (4 * arctanSeries (1 / 5) (stopIndex (1 / 5) (10 ^ (P + 2).toNat)) -
    arctanSeries (1 / 239) (stopIndex (1 / 239) (10 ^ (P + 2).toNat)))

/-! ## main (source lines 84-157) -/

/-- The C library predicate `isspace` in the "C" locale. -/
def isspace (c : Char) : Bool :=
  c.toNat = 32 || (9 ≤ c.toNat && c.toNat ≤ 13)

/-- The C library predicate `isdigit`. -/
def isdigit (c : Char) : Bool :=
  48 ≤ c.toNat && c.toNat ≤ 57

/-- Leading white space is skipped by `atoi`. -/
def skipSpaces : List Char → List Char
  | [] => []
  | c :: cs => if isspace c then skipSpaces cs else c :: cs

/-- Value of the longest run of decimal digits at the head of the string,
accumulated left to right from `acc`. -/
def digitsValue (acc : Int) : List Char → Int
  | [] => acc
  | c :: cs => if isdigit c then digitsValue (acc * 10 + ((c.toNat : Int) - 48)) cs else acc

/-- The C library function `atoi` on a NUL-terminated string given as its
list of characters: white space, an optional sign, then decimal digits; `0`
when no digit is found.  (The value is exact; C leaves overflow undefined.) -/
def atoi (s : List Char) : Int :=
  match skipSpaces s with
  | '-' :: cs => -digitsValue 0 cs
  | '+' :: cs => digitsValue 0 cs
  | cs => digitsValue 0 cs

/-- The constant `M_PI` of `math.h`. -/
def M_PI : ℚ :=
  3.14159265358979323846

/-- The four labels printed by the performance assessment. -/
inductive Tier where
  | excellent
  | good
  | average
  | low
deriving DecidableEq, Repr

/-- The `if / else if` chain of source lines 146-154 on `performance_score`. -/
def tier (performance_score : ℚ) : Tier :=
  if performance_score > 100 then Tier.excellent
  else if performance_score > 50 then Tier.good
  else if performance_score > 20 then Tier.average
  else Tier.low

/-- What `main` writes to standard output, one item per `printf` statement
(the seven lines of `print_usage` being one item), with the values printed. -/
inductive Output where
  | usage
  | methodError
  | precisionError
  | start
  | methodLabel
  | methodName (method : Int)
  | resultHeader
  | piCalculated (precision : Int) (pi_calculated : ℚ)
  | piReference (value : ℚ)
  | error (value : ℚ)
  | iterationCount (iterations : Int)
  | cpuTime (cpu_time : ℚ)
  | speed (value : ℚ)
  | assessmentHeader
  | performanceScore (performance_score : ℚ)
  | cpuTier (t : Tier)
deriving DecidableEq

/-- A call of one of the three estimators, with its argument. -/
inductive Call where
  | leibniz (iterations : Int)
  | monte_carlo (iterations : Int)
  | machin (precision : Int)
deriving DecidableEq

/-- What `main` reads from its environment besides `argv`: the constant
`RAND_MAX`, the values returned by `rand()`, the two readings of `clock()` and
the constant `CLOCKS_PER_SEC`. -/
structure Env where
  RAND_MAX : Nat
  draws : Nat → Nat
  start_time : Int
  end_time : Int
  CLOCKS_PER_SEC : Nat

/-- Observable result of a run of `main`: the exit code, the output, the
estimator calls made, and the final values of the locals `iterations` and
`pi_calculated`. -/
structure Run where
  exit_code : Int
  output : List Output
  calls : List Call
  iterations : Int
  pi_calculated : ℚ

/-- State left by the `switch (method)` statement: what it printed, the
estimator calls it made, and the locals `iterations` and `pi_calculated`. -/
structure Dispatch where
  printed : List Output
  calls : List Call
  iterations : Int
  pi_calculated : ℚ

/-- The `switch (method)` of source lines 111-127.  Each case prints the name
of its method, sets `iterations` and calls its estimator; when no case
matches nothing is printed and both locals keep their initial `0`. -/
def dispatch (env : Env) (method precision : Int) : Dispatch :=
  if method = 1 then
    let iterations := castLongLong (pow10 (precision + 6))
    { printed := [Output.methodName 1]
      calls := [Call.leibniz iterations]
      iterations := iterations
      pi_calculated := calculate_pi_leibniz iterations }
  else if method = 2 then
    let iterations := castLongLong (pow10 (precision + 6))
    { printed := [Output.methodName 2]
      calls := [Call.monte_carlo iterations]
      iterations := iterations
      pi_calculated := calculate_pi_monte_carlo env.RAND_MAX env.draws iterations }
  else if method = 3 then
    { printed := [Output.methodName 3]
      calls := [Call.machin precision]
      iterations := castLongLong (pow10 (precision + 2))
      pi_calculated := calculate_pi_machin precision }
  else { printed := [], calls := [], iterations := 0, pi_calculated := 0 }

/-- Embedding of `main`; `argv` is the whole argument vector (program name
first), so that `argc` is its length.  Quotients are exact; where `cpu_time`
is `0` the C program divides by zero (an IEEE infinity or NaN), which `ℚ`
renders as `0`. -/
def main (env : Env) (argv : List (List Char)) : Run :=
  if argv.length ≠ 3 then
    { exit_code := 1, output := [Output.usage], calls := [], iterations := 0, pi_calculated := 0 }
  else
    let method := atoi (argv.getD 1 [])
    let precision := atoi (argv.getD 2 [])
    if method < 1 ∨ method > 3 then
      { exit_code := 1, output := [Output.methodError, Output.usage], calls := [],
        iterations := 0, pi_calculated := 0 }
    else if precision < 1 ∨ precision > 15 then
      { exit_code := 1, output := [Output.precisionError], calls := [],
        iterations := 0, pi_calculated := 0 }
    else
      let r := dispatch env method precision
      let iterations := r.iterations
      let pi_calculated := r.pi_calculated
      let cpu_time : ℚ := ((env.end_time - env.start_time : Int) : ℚ) / (env.CLOCKS_PER_SEC : ℚ)
      let performance_score : ℚ := (iterations : ℚ) / cpu_time / 1000000
      { exit_code := 0
        output :=
          [Output.start, Output.methodLabel] ++ r.printed ++
            [Output.resultHeader,
              Output.piCalculated precision pi_calculated, Output.piReference M_PI,
              Output.error |pi_calculated - M_PI|, Output.iterationCount iterations,
              Output.cpuTime cpu_time, Output.speed ((iterations : ℚ) / cpu_time),
              Output.assessmentHeader, Output.performanceScore performance_score,
              Output.cpuTier (tier performance_score)]
        calls := r.calls
        iterations := iterations
        pi_calculated := pi_calculated }

/-! ## Theorems -/

theorem leibnizLoop_of_le (iterations : Int) (k : Nat) (s : LeibnizState)
    (h : s.i + k ≤ iterations) :
    leibnizLoop iterations k s = leibnizBody^[k] s := by
  induction k generalizing s with
  | zero => rfl
  | succ k ih =>
    have h1 : s.i < iterations := by push_cast at h; omega
    rw [leibnizLoop, if_pos h1, Function.iterate_succ_apply]
    apply ih
    simp only [leibnizBody]
    push_cast at h
    omega

theorem leibnizBody_iterate (k : Nat) :
    leibnizBody^[k] leibnizInit =
      { i := k
        pi := ∑ j in Finset.range k, (-1 : ℚ) ^ j / (2 * (j : ℚ) + 1)
        sign := (-1) ^ k } := by
  induction k with
  | zero => simp [leibnizInit]
  | succ k ih =>
    rw [Function.iterate_succ_apply', ih]
    simp only [leibnizBody, Finset.sum_range_succ, pow_succ]
    congr 1
    push_cast
    ring

theorem leibnizLoop_done (iterations : Int) (fuel : Nat) (s : LeibnizState)
    (h : iterations ≤ s.i) : leibnizLoop iterations fuel s = s := by
  cases fuel with
  | zero => rfl
  | succ k => rw [leibnizLoop, if_neg (not_lt.mpr h)]

theorem leibnizLoop_add (iterations : Int) (k m : Nat) (s : LeibnizState) :
    leibnizLoop iterations (k + m) s = leibnizLoop iterations m (leibnizLoop iterations k s) := by
  induction k generalizing s with
  | zero => simp [leibnizLoop]
  | succ k ih =>
    rw [Nat.succ_add, leibnizLoop, leibnizLoop]
    by_cases h : s.i < iterations
    · rw [if_pos h, if_pos h, ih]
    · rw [if_neg h, if_neg h, leibnizLoop_done iterations m s (not_lt.mp h)]

theorem leibnizLoop_nat (N k : Nat) (h : k ≤ N) :
    leibnizLoop (N : Int) k leibnizInit =
      { i := k
        pi := ∑ j in Finset.range k, (-1 : ℚ) ^ j / (2 * (j : ℚ) + 1)
        sign := (-1) ^ k } := by
  rw [leibnizLoop_of_le, leibnizBody_iterate]
  simp only [leibnizInit]
  omega

/-- C2: for every iteration count `N ≥ 0`, `calculate_pi_leibniz N` is
`4 * Σ_{i<N} (-1)^i / (2i+1)` in exact arithmetic; at the start of step `i`
(after `i` passes of the loop) the counter is `i` and `sign` is `(-1)^i`; and
the loop has ended through its own condition, further fuel changing nothing. -/
theorem calculate_pi_leibniz_closed_form (N : Nat) :
    calculate_pi_leibniz (N : Int) =
        4 * ∑ i in Finset.range N, (-1 : ℚ) ^ i / (2 * (i : ℚ) + 1) ∧
      (∀ i : Nat, i ≤ N →
        (leibnizLoop (N : Int) i leibnizInit).i = i ∧
          (leibnizLoop (N : Int) i leibnizInit).sign = (-1) ^ i) ∧
      ∀ extra : Nat,
        leibnizLoop (N : Int) (N + extra) leibnizInit = leibnizLoop (N : Int) N leibnizInit := by
  refine ⟨?_, ?_, ?_⟩
  · rw [calculate_pi_leibniz, Int.toNat_ofNat, leibnizLoop_nat N N le_rfl]
    ring
  · intro i hi
    rw [leibnizLoop_nat N i hi]
    exact ⟨rfl, rfl⟩
  · intro extra
    rw [leibnizLoop_add, leibnizLoop_done]
    rw [leibnizLoop_nat N N le_rfl]

/-- C1: `main` returns `0` exactly when `argc` is 3 (two arguments), the
parsed method is in `{1,2,3}` and the parsed precision is in `[1,15]`; in
every other case it returns `1` and calls none of the three estimators
(whereas a successful run calls exactly one). -/
theorem main_exit_code (env : Env) (argv : List (List Char)) :
    ((main env argv).exit_code = 0 ↔
        argv.length = 3 ∧ (1 ≤ atoi (argv.getD 1 []) ∧ atoi (argv.getD 1 []) ≤ 3) ∧
          (1 ≤ atoi (argv.getD 2 []) ∧ atoi (argv.getD 2 []) ≤ 15)) ∧
      ((main env argv).exit_code ≠ 0 →
        (main env argv).exit_code = 1 ∧ (main env argv).calls = []) ∧
      ((main env argv).exit_code = 0 → (main env argv).calls.length = 1) := by
  unfold main
  generalize atoi (argv.getD 1 []) = method
  generalize atoi (argv.getD 2 []) = precision
  by_cases h1 : argv.length ≠ 3
  · simp [h1]
  · have h6 : argv.length = 3 := not_not.mp h1
    by_cases h2 : method < 1 ∨ method > 3
    · simp only [if_neg h1, if_pos h2]
      have h3 : ¬ (1 ≤ method ∧ method ≤ 3) := by omega
      simp [h3]
    · by_cases h3 : precision < 1 ∨ precision > 15
      · simp only [if_neg h1, if_neg h2, if_pos h3]
        have h4 : ¬ (1 ≤ precision ∧ precision ≤ 15) := by omega
        simp [h4]
      · simp only [if_neg h1, if_neg h2, if_neg h3]
        have h4 : 1 ≤ precision ∧ precision ≤ 15 := by omega
        have h5 : 1 ≤ method ∧ method ≤ 3 := by omega
        refine ⟨by simp [h4, h5, h6], by simp, ?_⟩
        intro _
        have h7 : method = 1 ∨ method = 2 ∨ method = 3 := by omega
        rcases h7 with h | h | h <;> simp [dispatch, h]

theorem monteCarloLoop_of_le (RAND_MAX : Nat) (draws : Nat → Nat) (iterations : Int) (k : Nat)
    (s : MonteCarloState) (h : s.i + k ≤ iterations) :
    monteCarloLoop RAND_MAX draws iterations k s = (monteCarloBody RAND_MAX draws)^[k] s := by
  induction k generalizing s with
  | zero => rfl
  | succ k ih =>
    have h1 : s.i < iterations := by push_cast at h; omega
    rw [monteCarloLoop, if_pos h1, Function.iterate_succ_apply]
    apply ih
    simp only [monteCarloBody]
    push_cast at h
    omega

theorem insideCount_succ (RAND_MAX : Nat) (draws : Nat → Nat) (k : Nat) :
    insideCount RAND_MAX draws (k + 1) =
      insideCount RAND_MAX draws k +
        if coordinate RAND_MAX (draws (2 * k)) ^ 2 +
            coordinate RAND_MAX (draws (2 * k + 1)) ^ 2 ≤ 1 then 1 else 0 := by
  unfold insideCount
  rw [Finset.range_succ, Finset.filter_insert]
  split_ifs with h
  · rw [Finset.card_insert_of_not_mem]
    simp
  · rfl

theorem insideCount_le (RAND_MAX : Nat) (draws : Nat → Nat) (N : Nat) :
    insideCount RAND_MAX draws N ≤ N := by
  unfold insideCount
  calc _ ≤ (Finset.range N).card := Finset.card_filter_le _ _
    _ = N := Finset.card_range N

theorem monteCarloBody_iterate (RAND_MAX : Nat) (draws : Nat → Nat) (k : Nat) :
    (monteCarloBody RAND_MAX draws)^[k] monteCarloInit =
      { i := k, inside_circle := insideCount RAND_MAX draws k, drawn := 2 * k } := by
  induction k with
  | zero => simp [monteCarloInit, insideCount]
  | succ k ih =>
    rw [Function.iterate_succ_apply', ih, insideCount_succ]
    simp only [monteCarloBody, ← pow_two, MonteCarloState.mk.injEq]
    refine ⟨by push_cast; ring, ?_, by ring⟩
    split_ifs <;> simp

theorem calculate_pi_monte_carlo_eq (RAND_MAX : Nat) (draws : Nat → Nat) (N : Nat) :
    calculate_pi_monte_carlo RAND_MAX draws (N : Int) =
      4 * (insideCount RAND_MAX draws N : ℚ) / (N : ℚ) := by
  rw [calculate_pi_monte_carlo, Int.toNat_ofNat, monteCarloLoop_of_le, monteCarloBody_iterate]
  · simp
  · simp [monteCarloInit]

/-- C4: for every `N ≥ 1` and every sequence of raw draws, the value returned
by `calculate_pi_monte_carlo N` lies in `[0, 4]`. -/
theorem calculate_pi_monte_carlo_range (N : Nat) (hN : 1 ≤ N) (RAND_MAX : Nat)
    (draws : Nat → Nat) :
    0 ≤ calculate_pi_monte_carlo RAND_MAX draws (N : Int) ∧
      calculate_pi_monte_carlo RAND_MAX draws (N : Int) ≤ 4 := by
  have hpos : (0 : ℚ) < (N : ℚ) := by
    have : 0 < N := hN
    exact_mod_cast this
  have hle : (insideCount RAND_MAX draws N : ℚ) ≤ (N : ℚ) := by
    exact_mod_cast insideCount_le RAND_MAX draws N
  rw [calculate_pi_monte_carlo_eq]
  constructor
  · positivity
  · rw [div_le_iff₀ hpos]
    linarith

/-- Witness for C4: three trials with `RAND_MAX = 32767`, draw `k` being `k`. -/
theorem calculate_pi_monte_carlo_range_witness :
    0 ≤ calculate_pi_monte_carlo 32767 (fun k => k) ((3 : Nat) : Int) ∧
      calculate_pi_monte_carlo 32767 (fun k => k) ((3 : Nat) : Int) ≤ 4 :=
  calculate_pi_monte_carlo_range 3 (by decide) 32767 (fun k => k)

/-! ### calculate_pi_machin -/

theorem toLongLong_of_lt (x : Int) (h0 : 0 ≤ x) (h1 : x < 2 ^ 63) : toLongLong x = x := by
  unfold toLongLong
  omega

theorem castLongLong_pow10_wrap (n : Nat) :
    castLongLong (pow10 (n : Int)) = toLongLong (10 ^ n) := by
  have h1 : pow10 (n : Int) = (((10 : Int) ^ n : Int) : ℚ) := by
    simp [pow10]
  have h2 : (0 : ℚ) ≤ (((10 : Int) ^ n : Int) : ℚ) := by positivity
  rw [castLongLong, h1, if_pos h2, Int.floor_intCast]

theorem castLongLong_pow10 (n : Nat) (h : (10 : Int) ^ n < 2 ^ 63) :
    castLongLong (pow10 (n : Int)) = 10 ^ n := by
  rw [castLongLong_pow10_wrap, toLongLong_of_lt _ (by positivity) h]

theorem arctanLoop_stop (factor : ℚ) (iterations : Int) (fuel : Nat) (s : ArctanState)
    (h : ¬ (s.i < iterations ∧ |s.term| > cutoff)) :
    arctanLoop factor iterations fuel s = s := by
  cases fuel with
  | zero => rfl
  | succ k => rw [arctanLoop, if_neg h]

theorem arctanLoop_add (factor : ℚ) (iterations : Int) (k m : Nat) (s : ArctanState) :
    arctanLoop factor iterations (k + m) s =
      arctanLoop factor iterations m (arctanLoop factor iterations k s) := by
  induction k generalizing s with
  | zero => simp [arctanLoop]
  | succ k ih =>
    rw [Nat.succ_add, arctanLoop, arctanLoop]
    by_cases h : s.i < iterations ∧ |s.term| > cutoff
    · rw [if_pos h, if_pos h, ih]
    · rw [if_neg h, if_neg h, arctanLoop_stop factor iterations m s h]

theorem arctanLoop_of_cond (factor : ℚ) (iterations : Int) (k : Nat) (s : ArctanState)
    (h : ∀ j, j < k → ((arctanBody factor)^[j] s).i < iterations ∧
      |((arctanBody factor)^[j] s).term| > cutoff) :
    arctanLoop factor iterations k s = (arctanBody factor)^[k] s := by
  induction k generalizing s with
  | zero => rfl
  | succ k ih =>
    have h0 := h 0 (Nat.succ_pos k)
    rw [Function.iterate_zero_apply] at h0
    rw [arctanLoop, if_pos h0, Function.iterate_succ_apply]
    apply ih
    intro j hj
    have hj1 := h (j + 1) (Nat.succ_lt_succ hj)
    rwa [Function.iterate_succ_apply] at hj1

theorem arctanBody_iterate (x : ℚ) (k : Nat) :
    (arctanBody (x ^ 2))^[k] (arctanInit x) =
      { i := k, acc := arctanSeries x k, term := x ^ (2 * k + 1) } := by
  induction k with
  | zero => simp [arctanInit, arctanSeries]
  | succ k ih =>
    rw [Function.iterate_succ_apply', ih]
    simp only [arctanBody, ArctanState.mk.injEq, arctanSeries, Finset.sum_range_succ]
    refine ⟨by push_cast; ring, ?_, by ring⟩
    rcases Nat.even_or_odd k with hk | hk
    · have h2 : (k : Int) % 2 = 0 := by
        obtain ⟨r, rfl⟩ := hk
        omega
      rw [if_pos h2, hk.neg_one_pow]
      push_cast
      ring
    · have h2 : ¬ (k : Int) % 2 = 0 := by
        obtain ⟨r, rfl⟩ := hk
        omega
      rw [if_neg h2, hk.neg_one_pow]
      push_cast
      ring

/-- An arctangent loop started at `x` (with `factor = x^2`) that meets the
cutoff first at step `k`, `k` below the bound, stops after exactly `k` passes
whatever fuel is left. -/
theorem arctanLoop_exit (x : ℚ) (iterations : Int) (k extra : Nat)
    (hk : (k : Int) ≤ iterations)
    (habove : ∀ j, j < k → |x ^ (2 * j + 1)| > cutoff)
    (hbelow : ¬ |x ^ (2 * k + 1)| > cutoff) :
    arctanLoop (x ^ 2) iterations (k + extra) (arctanInit x) =
      { i := k, acc := arctanSeries x k, term := x ^ (2 * k + 1) } := by
  have hrun : arctanLoop (x ^ 2) iterations k (arctanInit x) =
      (arctanBody (x ^ 2))^[k] (arctanInit x) := by
    apply arctanLoop_of_cond
    intro j hj
    rw [arctanBody_iterate]
    refine ⟨?_, habove j hj⟩
    simp only
    omega
  rw [arctanLoop_add, hrun, arctanBody_iterate, arctanLoop_stop]
  simp only [not_and]
  intro _
  exact hbelow

theorem arctanLoop_fifth (iterations : Int) (extra : Nat) (h : 11 ≤ iterations) :
    arctanLoop ((1 / 5) ^ 2) iterations (11 + extra) (arctanInit (1 / 5)) =
      { i := 11, acc := arctanSeries (1 / 5) 11, term := (1 / 5) ^ 23 } := by
  apply arctanLoop_exit (1 / 5) iterations 11 extra
  · exact_mod_cast h
  · intro j hj
    interval_cases j <;> norm_num [cutoff, abs_of_pos]
  · norm_num [cutoff, abs_of_pos]

theorem arctanLoop_239th (iterations : Int) (extra : Nat) (h : 3 ≤ iterations) :
    arctanLoop ((1 / 239) ^ 2) iterations (3 + extra) (arctanInit (1 / 239)) =
      { i := 3, acc := arctanSeries (1 / 239) 3, term := (1 / 239) ^ 7 } := by
  apply arctanLoop_exit (1 / 239) iterations 3 extra
  · exact_mod_cast h
  · intro j hj
    interval_cases j <;> norm_num [cutoff, abs_of_pos]
  · norm_num [cutoff, abs_of_pos]

theorem machin_iterations (P : Int) (h1 : 1 ≤ P) (h2 : P ≤ 15) :
    ∃ n : Nat, 3 ≤ n ∧ n ≤ 17 ∧ P + 2 = (n : Int) ∧
      castLongLong (pow10 (P + 2)) = 10 ^ n := by
  refine ⟨(P + 2).toNat, by omega, by omega, by omega, ?_⟩
  have hP : P + 2 = ((P + 2).toNat : Int) := by omega
  have hn : (P + 2).toNat ≤ 17 := by omega
  have hlt : (10 : Int) ^ (P + 2).toNat < 2 ^ 63 :=
    calc (10 : Int) ^ (P + 2).toNat ≤ 10 ^ 17 := pow_le_pow_right₀ (by norm_num) hn
      _ < 2 ^ 63 := by norm_num
  conv_lhs => rw [hP]
  exact castLongLong_pow10 _ hlt

theorem calculate_pi_machin_valid (P : Int) (h1 : 1 ≤ P) (h2 : P ≤ 15) :
    calculate_pi_machin P =
      4 * (4 * arctanSeries (1 / 5) 11 - arctanSeries (1 / 239) 3) := by
  obtain ⟨n, hn3, _, _, hN⟩ := machin_iterations P h1 h2
  have hge : (1000 : Int) ≤ 10 ^ n :=
    calc (1000 : Int) = 10 ^ 3 := by norm_num
      _ ≤ 10 ^ n := pow_le_pow_right₀ (by norm_num) hn3
  have hfuel : ∃ extra : Nat, ((10 : Int) ^ n).toNat = 11 + extra :=
    ⟨((10 : Int) ^ n).toNat - 11, by omega⟩
  obtain ⟨extra, hextra⟩ := hfuel
  have e5 : (1 / 25 : ℚ) = (1 / 5) ^ 2 := by norm_num
  have e239 : (1 / (239 * 239) : ℚ) = (1 / 239) ^ 2 := by norm_num
  unfold calculate_pi_machin
  simp only [hN, hextra, e5, e239]
  rw [arctanLoop_fifth _ extra (by omega)]
  have h8 : 11 + extra = 3 + (8 + extra) := by omega
  rw [h8, arctanLoop_239th _ (8 + extra) (by omega)]

theorem machin_value_bounds :
    (314159265358979323847 / 10 ^ 20 : ℚ) - 1 / 10 ^ 15 <
        4 * (4 * arctanSeries (1 / 5) 11 - arctanSeries (1 / 239) 3) ∧
      4 * (4 * arctanSeries (1 / 5) 11 - arctanSeries (1 / 239) 3) <
        (314159265358979323846 / 10 ^ 20 : ℚ) + 1 / 10 ^ 15 := by
  constructor <;> norm_num [arctanSeries, Finset.sum_range_succ]

theorem machin_value_error :
    |((4 * (4 * arctanSeries (1 / 5) 11 - arctanSeries (1 / 239) 3) : ℚ) : ℝ) - Real.pi| <
      1 / 10 ^ 15 := by
  obtain ⟨hlo, hhi⟩ := machin_value_bounds
  have hlo' := (Rat.cast_lt (K := ℝ)).mpr hlo
  have hhi' := (Rat.cast_lt (K := ℝ)).mpr hhi
  push_cast at hlo' hhi'
  have h1 : (314159265358979323846 / 10 ^ 20 : ℝ) < Real.pi := by
    have h := Real.pi_gt_d20
    norm_num at h ⊢
    linarith
  have h2 : Real.pi < (314159265358979323847 / 10 ^ 20 : ℝ) := by
    have h := Real.pi_lt_d20
    norm_num at h ⊢
    linarith
  rw [abs_lt]
  push_cast
  constructor <;> linarith

/-- C5: for every precision `P` in `[1,15]`, the value returned by
`calculate_pi_machin P` (exact arithmetic, cutoff `10^-15`) differs from the
real number `π` by less than `10^(-P)`. -/
theorem calculate_pi_machin_error (P : Int) (h1 : 1 ≤ P) (h2 : P ≤ 15) :
    |((calculate_pi_machin P : ℚ) : ℝ) - Real.pi| < (10 : ℝ) ^ (-P) := by
  rw [calculate_pi_machin_valid P h1 h2]
  have hle : (10 : ℝ) ^ (-(15 : Int)) ≤ (10 : ℝ) ^ (-P) :=
    zpow_le_zpow_right₀ (by norm_num) (by omega)
  have h15 : (10 : ℝ) ^ (-(15 : Int)) = 1 / 10 ^ 15 := by norm_num
  rw [h15] at hle
  exact lt_of_lt_of_le machin_value_error hle

/-- Witness for C5 at the largest valid precision, `P = 15`. -/
theorem calculate_pi_machin_error_witness :
    |((calculate_pi_machin 15 : ℚ) : ℝ) - Real.pi| < (10 : ℝ) ^ (-(15 : Int)) :=
  calculate_pi_machin_error 15 (by decide) (by decide)

/-- C6: for every precision `P` with `5 ≤ P ≤ 15`, the value returned by
`calculate_pi_machin P` (exact arithmetic) is within `10^-10` of the real
number `π` (strictly closer, in fact). -/
theorem calculate_pi_machin_fast (P : Int) (h1 : 5 ≤ P) (h2 : P ≤ 15) :
    |((calculate_pi_machin P : ℚ) : ℝ) - Real.pi| < 1 / 10 ^ 10 := by
  rw [calculate_pi_machin_valid P (by omega) h2]
  have hle : (1 / 10 ^ 15 : ℝ) ≤ 1 / 10 ^ 10 := by norm_num
  exact lt_of_lt_of_le machin_value_error hle

/-- Witness for C6 at the smallest precision covered, `P = 5`. -/
theorem calculate_pi_machin_fast_witness :
    |((calculate_pi_machin 5 : ℚ) : ℝ) - Real.pi| < 1 / 10 ^ 10 :=
  calculate_pi_machin_fast 5 (by decide) (by decide)

/-- C7: the tier is a total function of the performance score with exactly
one label per score: `excellent` iff `score > 100`, `good` iff
`50 < score ≤ 100`, `average` iff `20 < score ≤ 50`, `low` iff `score ≤ 20`;
the scores 100, 50 and 20 are `good`, `average` and `low`. -/
theorem tier_thresholds (score : ℚ) :
    (tier score = Tier.excellent ↔ score > 100) ∧
      (tier score = Tier.good ↔ 50 < score ∧ score ≤ 100) ∧
      (tier score = Tier.average ↔ 20 < score ∧ score ≤ 50) ∧
      (tier score = Tier.low ↔ score ≤ 20) ∧
      tier 100 = Tier.good ∧ tier 50 = Tier.average ∧ tier 20 = Tier.low := by
  have hcases : score > 100 ∨ (50 < score ∧ score ≤ 100) ∨ (20 < score ∧ score ≤ 50) ∨
      score ≤ 20 := by
    rcases lt_or_le 100 score with h | h
    · exact Or.inl h
    · rcases lt_or_le 50 score with h' | h'
      · exact Or.inr (Or.inl ⟨h', h⟩)
      · rcases lt_or_le 20 score with h'' | h''
        · exact Or.inr (Or.inr (Or.inl ⟨h'', h'⟩))
        · exact Or.inr (Or.inr (Or.inr h''))
  refine ⟨?_, ?_, ?_, ?_, by norm_num [tier], by norm_num [tier], by norm_num [tier]⟩
  all_goals
    rcases hcases with h | ⟨h, h'⟩ | ⟨h, h'⟩ | h
    · have e : tier score = Tier.excellent := by simp [tier, h]
      rw [e]
      constructor <;> intro g <;>
        first
        | rfl
        | exact h
        | exact ⟨h, h'⟩
        | exact absurd g (by decide)
        | (exfalso; linarith [g.1, g.2])
        | (exfalso; linarith)
    · have e : tier score = Tier.good := by
        simp [tier, h, not_lt.mpr h']
      rw [e]
      constructor <;> intro g <;>
        first
        | rfl
        | exact h
        | exact ⟨h, h'⟩
        | exact absurd g (by decide)
        | (exfalso; linarith [g.1, g.2])
        | (exfalso; linarith)
    · have e : tier score = Tier.average := by
        have h100 : ¬ score > 100 := by linarith
        simp [tier, h, not_lt.mpr h', h100]
      rw [e]
      constructor <;> intro g <;>
        first
        | rfl
        | exact h
        | exact ⟨h, h'⟩
        | exact absurd g (by decide)
        | (exfalso; linarith [g.1, g.2])
        | (exfalso; linarith)
    · have e : tier score = Tier.low := by
        have h100 : ¬ score > 100 := by linarith
        have h50 : ¬ score > 50 := by linarith
        have h20 : ¬ score > 20 := by linarith
        simp [tier, h100, h50, h20]
      rw [e]
      constructor <;> intro g <;>
        first
        | rfl
        | exact h
        | exact ⟨h, h'⟩
        | exact absurd g (by decide)
        | (exfalso; linarith [g.1, g.2])
        | (exfalso; linarith)

/-! ### main: iteration counts and argument parsing -/

theorem main_valid (env : Env) (argv : List (List Char)) (hlen : argv.length = 3)
    (hm : 1 ≤ atoi (argv.getD 1 []) ∧ atoi (argv.getD 1 []) ≤ 3)
    (hp : 1 ≤ atoi (argv.getD 2 []) ∧ atoi (argv.getD 2 []) ≤ 15) :
    (main env argv).exit_code = 0 ∧
      (main env argv).calls = (dispatch env (atoi (argv.getD 1 [])) (atoi (argv.getD 2 []))).calls ∧
      (main env argv).iterations =
        (dispatch env (atoi (argv.getD 1 [])) (atoi (argv.getD 2 []))).iterations := by
  have h1 : ¬ argv.length ≠ 3 := not_not.mpr hlen
  have h2 : ¬ (atoi (argv.getD 1 []) < 1 ∨ atoi (argv.getD 1 []) > 3) := by omega
  have h3 : ¬ (atoi (argv.getD 2 []) < 1 ∨ atoi (argv.getD 2 []) > 15) := by omega
  unfold main
  simp only [if_neg h1, if_neg h2, if_neg h3]
  refine ⟨?_, ?_, ?_⟩ <;> first | rfl | trivial

theorem dispatch_iterations (env : Env) (precision : Int) :
    (dispatch env 1 precision).iterations = castLongLong (pow10 (precision + 6)) ∧
      (dispatch env 2 precision).iterations = castLongLong (pow10 (precision + 6)) ∧
      (dispatch env 3 precision).iterations = castLongLong (pow10 (precision + 2)) := by
  simp [dispatch]

theorem dispatch_calls (env : Env) (precision : Int) :
    (dispatch env 1 precision).calls = [Call.leibniz (castLongLong (pow10 (precision + 6)))] ∧
      (dispatch env 2 precision).calls =
        [Call.monte_carlo (castLongLong (pow10 (precision + 6)))] ∧
      (dispatch env 3 precision).calls = [Call.machin precision] := by
  simp [dispatch]

theorem toLongLong_pow10_19 : toLongLong (10 ^ 19) = -8446744073709551616 := by
  decide

theorem castLongLong_pow10_19 : castLongLong (pow10 (13 + 6)) = -8446744073709551616 := by
  have h := castLongLong_pow10_wrap 19
  rw [toLongLong_pow10_19] at h
  exact_mod_cast h

/-- C8 (failing input): with precision 13 and method 1 or 2, `main` leaves
`-8446744073709551616` in `iterations`, which is `10^19` wrapped around
modulo `2^64` and not `10^(13+6)`. -/
theorem main_iterations_overflow (env : Env) :
    (main env [['p', 'i'], ['1'], ['1', '3']]).iterations = -8446744073709551616 ∧
      (main env [['p', 'i'], ['2'], ['1', '3']]).iterations = -8446744073709551616 ∧
      (main env [['p', 'i'], ['1'], ['1', '3']]).iterations ≠ 10 ^ (13 + 6) := by
  have h1 := (main_valid env [['p', 'i'], ['1'], ['1', '3']] rfl
    (by decide) (by decide)).2.2
  have h2 := (main_valid env [['p', 'i'], ['2'], ['1', '3']] rfl
    (by decide) (by decide)).2.2
  have a1 : atoi ['1'] = 1 := by decide
  have a2 : atoi ['2'] = 2 := by decide
  have a13 : atoi ['1', '3'] = 13 := by decide
  simp only [List.getD_cons_succ, List.getD_cons_zero, a1, a2, a13] at h1 h2
  rw [(dispatch_iterations env 13).1, castLongLong_pow10_19] at h1
  rw [(dispatch_iterations env 13).2.1, castLongLong_pow10_19] at h2
  refine ⟨h1, h2, ?_⟩
  rw [h1]
  decide

/-- C9 (failing input): with method 2 and precision 13, the count that `main`
passes to `calculate_pi_monte_carlo` is `-8446744073709551616`, which is not
`≥ 1`: the final division is by a negative count. -/
theorem main_monte_carlo_count_negative (env : Env) :
    (main env [['p', 'i'], ['2'], ['1', '3']]).exit_code = 0 ∧
      (main env [['p', 'i'], ['2'], ['1', '3']]).calls =
        [Call.monte_carlo (-8446744073709551616)] ∧
      ¬ (1 : Int) ≤ -8446744073709551616 := by
  obtain ⟨h0, h1, _⟩ := main_valid env [['p', 'i'], ['2'], ['1', '3']] rfl
    (by decide) (by decide)
  have a2 : atoi ['2'] = 2 := by decide
  have a13 : atoi ['1', '3'] = 13 := by decide
  simp only [List.getD_cons_succ, List.getD_cons_zero, a2, a13] at h1
  rw [(dispatch_calls env 13).2.1, castLongLong_pow10_19] at h1
  exact ⟨h0, h1, by decide⟩

theorem main_wrong_count (env : Env) (argv : List (List Char)) (h : argv.length ≠ 3) :
    (main env argv).output = [Output.usage] ∧ (main env argv).exit_code = 1 := by
  unfold main
  rw [if_pos h]
  exact ⟨rfl, rfl⟩

theorem main_bad_method (env : Env) (argv : List (List Char)) (hlen : argv.length = 3)
    (hm : atoi (argv.getD 1 []) < 1 ∨ atoi (argv.getD 1 []) > 3) :
    (main env argv).output = [Output.methodError, Output.usage] ∧
      (main env argv).exit_code = 1 := by
  have h1 : ¬ argv.length ≠ 3 := not_not.mpr hlen
  unfold main
  rw [if_neg h1]
  simp only [if_pos hm]
  constructor <;> first | rfl | trivial

theorem main_bad_precision (env : Env) (argv : List (List Char)) (hlen : argv.length = 3)
    (hm : ¬ (atoi (argv.getD 1 []) < 1 ∨ atoi (argv.getD 1 []) > 3))
    (hp : atoi (argv.getD 2 []) < 1 ∨ atoi (argv.getD 2 []) > 15) :
    (main env argv).output = [Output.precisionError] ∧ (main env argv).exit_code = 1 := by
  have h1 : ¬ argv.length ≠ 3 := not_not.mpr hlen
  unfold main
  rw [if_neg h1]
  simp only [if_neg hm, if_pos hp]
  constructor <;> first | rfl | trivial

/-- C11: on a rejected invocation the output is fixed by the first failing
check: a wrong argument count prints the usage text only; a method outside
`{1,2,3}` prints the method error then the usage text, whatever the precision
(for instance method 4 with precision 5 or 16); a valid method with a
precision outside `[1,15]` prints the precision error only (for instance
method 1 with precision 16).  The exit code is 1 each time and nothing else
is printed. -/
theorem main_rejected_output (env : Env) (argv : List (List Char)) :
    (argv.length ≠ 3 →
        (main env argv).output = [Output.usage] ∧ (main env argv).exit_code = 1) ∧
      (argv.length = 3 → (atoi (argv.getD 1 []) < 1 ∨ atoi (argv.getD 1 []) > 3) →
        (main env argv).output = [Output.methodError, Output.usage] ∧
          (main env argv).exit_code = 1) ∧
      (argv.length = 3 → ¬ (atoi (argv.getD 1 []) < 1 ∨ atoi (argv.getD 1 []) > 3) →
        (atoi (argv.getD 2 []) < 1 ∨ atoi (argv.getD 2 []) > 15) →
        (main env argv).output = [Output.precisionError] ∧ (main env argv).exit_code = 1) ∧
      (main env [['p', 'i'], ['4'], ['5']]).output = [Output.methodError, Output.usage] ∧
      (main env [['p', 'i'], ['4'], ['1', '6']]).output = [Output.methodError, Output.usage] ∧
      (main env [['p', 'i'], ['1'], ['1', '6']]).output = [Output.precisionError] ∧
      (main env [['p', 'i'], ['1']]).output = [Output.usage] := by
  refine ⟨main_wrong_count env argv, main_bad_method env argv, main_bad_precision env argv,
    ?_, ?_, ?_, ?_⟩
  · exact (main_bad_method env [['p', 'i'], ['4'], ['5']] rfl (by decide)).1
  · exact (main_bad_method env [['p', 'i'], ['4'], ['1', '6']] rfl (by decide)).1
  · exact (main_bad_precision env [['p', 'i'], ['1'], ['1', '6']] rfl (by decide)
      (by decide)).1
  · exact (main_wrong_count env [['p', 'i'], ['1']] (by decide)).1

/-- C12: `calculate_pi_leibniz 0` is exactly `0`, obtained on the general
path: the loop makes no pass (whatever the fuel), leaving the initial state,
and the result is its `pi` times 4, that is `0 * 4`. -/
theorem calculate_pi_leibniz_zero :
    calculate_pi_leibniz 0 = 0 ∧
      (∀ fuel : Nat, leibnizLoop 0 fuel leibnizInit = leibnizInit) ∧
      calculate_pi_leibniz 0 = (leibnizLoop 0 (0 : Int).toNat leibnizInit).pi * 4 ∧
      leibnizInit.pi * 4 = 0 := by
  have hloop : ∀ fuel : Nat, leibnizLoop 0 fuel leibnizInit = leibnizInit := by
    intro fuel
    exact leibnizLoop_done 0 fuel leibnizInit (le_refl _)
  refine ⟨?_, hloop, rfl, ?_⟩
  · rw [calculate_pi_leibniz, hloop]
    simp [leibnizInit]
  · simp [leibnizInit]

/-! ### calculate_pi_machin: where the loops stop -/

/-- For a precision in `[1,15]` the bound computed by `calculate_pi_machin` is
at least 1000, the first loop leaves after 11 passes and the second after 3,
both because `term` has reached the cutoff. -/
theorem machin_loops (P : Int) (h1 : 1 ≤ P) (h2 : P ≤ 15) :
    (1000 : Int) ≤ castLongLong (pow10 (P + 2)) ∧
      arctanLoop (1 / 25) (castLongLong (pow10 (P + 2)))
          (castLongLong (pow10 (P + 2))).toNat (arctanInit (1 / 5)) =
        { i := 11, acc := arctanSeries (1 / 5) 11, term := (1 / 5) ^ 23 } ∧
      arctanLoop (1 / (239 * 239)) (castLongLong (pow10 (P + 2)))
          (castLongLong (pow10 (P + 2))).toNat (arctanInit (1 / 239)) =
        { i := 3, acc := arctanSeries (1 / 239) 3, term := (1 / 239) ^ 7 } := by
  obtain ⟨n, hn3, _, _, hN⟩ := machin_iterations P h1 h2
  have hge : (1000 : Int) ≤ 10 ^ n :=
    calc (1000 : Int) = 10 ^ 3 := by norm_num
      _ ≤ 10 ^ n := pow_le_pow_right₀ (by norm_num) hn3
  obtain ⟨extra, hextra⟩ : ∃ extra : Nat, ((10 : Int) ^ n).toNat = 11 + extra :=
    ⟨((10 : Int) ^ n).toNat - 11, by omega⟩
  have e5 : (1 / 25 : ℚ) = (1 / 5) ^ 2 := by norm_num
  have e239 : (1 / (239 * 239) : ℚ) = (1 / 239) ^ 2 := by norm_num
  have h8 : 11 + extra = 3 + (8 + extra) := by omega
  rw [hN, hextra, e5, e239]
  refine ⟨hge, arctanLoop_fifth _ extra (by omega), ?_⟩
  rw [h8]
  exact arctanLoop_239th _ (8 + extra) (by omega)

/-- C18: over the valid range the result of `calculate_pi_machin` does not
depend on its argument: for `P`, `Q` in `[1,15]` the two results are equal,
because for every such `P` the `arctan(1/5)` loop leaves after exactly 11
passes and the `arctan(1/239)` loop after exactly 3, each with `term` at or
below the cutoff and the counter still below the bound `10^(P+2)`. -/
theorem calculate_pi_machin_constant (P Q : Int) (hP1 : 1 ≤ P) (hP2 : P ≤ 15)
    (hQ1 : 1 ≤ Q) (hQ2 : Q ≤ 15) :
    calculate_pi_machin P = calculate_pi_machin Q ∧
      ((arctanLoop (1 / 25) (castLongLong (pow10 (P + 2)))
            (castLongLong (pow10 (P + 2))).toNat (arctanInit (1 / 5))).i = 11 ∧
        ¬ |(arctanLoop (1 / 25) (castLongLong (pow10 (P + 2)))
            (castLongLong (pow10 (P + 2))).toNat (arctanInit (1 / 5))).term| > cutoff) ∧
      ((arctanLoop (1 / (239 * 239)) (castLongLong (pow10 (P + 2)))
            (castLongLong (pow10 (P + 2))).toNat (arctanInit (1 / 239))).i = 3 ∧
        ¬ |(arctanLoop (1 / (239 * 239)) (castLongLong (pow10 (P + 2)))
            (castLongLong (pow10 (P + 2))).toNat (arctanInit (1 / 239))).term| > cutoff) ∧
      (11 : Int) < castLongLong (pow10 (P + 2)) ∧
      castLongLong (pow10 (P + 2)) = 10 ^ (P + 2).toNat := by
  obtain ⟨hge, h5, h239⟩ := machin_loops P hP1 hP2
  obtain ⟨n, _, _, hn, hN⟩ := machin_iterations P hP1 hP2
  have hn' : (P + 2).toNat = n := by omega
  refine ⟨?_, ?_, ?_, by omega, ?_⟩
  · rw [calculate_pi_machin_valid P hP1 hP2, calculate_pi_machin_valid Q hQ1 hQ2]
  · rw [h5]
    exact ⟨rfl, by norm_num [cutoff, abs_of_pos]⟩
  · rw [h239]
    exact ⟨rfl, by norm_num [cutoff, abs_of_pos]⟩
  · rw [hN, hn']

/-- Witness for C18: the two ends of the valid range, `P = 1` and `Q = 15`. -/
theorem calculate_pi_machin_constant_witness :
    calculate_pi_machin 1 = calculate_pi_machin 15 ∧
      ((arctanLoop (1 / 25) (castLongLong (pow10 (1 + 2)))
            (castLongLong (pow10 (1 + 2))).toNat (arctanInit (1 / 5))).i = 11 ∧
        ¬ |(arctanLoop (1 / 25) (castLongLong (pow10 (1 + 2)))
            (castLongLong (pow10 (1 + 2))).toNat (arctanInit (1 / 5))).term| > cutoff) ∧
      ((arctanLoop (1 / (239 * 239)) (castLongLong (pow10 (1 + 2)))
            (castLongLong (pow10 (1 + 2))).toNat (arctanInit (1 / 239))).i = 3 ∧
        ¬ |(arctanLoop (1 / (239 * 239)) (castLongLong (pow10 (1 + 2)))
            (castLongLong (pow10 (1 + 2))).toNat (arctanInit (1 / 239))).term| > cutoff) ∧
      (11 : Int) < castLongLong (pow10 (1 + 2)) ∧
      castLongLong (pow10 (1 + 2)) = 10 ^ ((1 : Int) + 2).toNat :=
  calculate_pi_machin_constant 1 15 (by decide) (by decide) (by decide) (by decide)

/-- C17: for every raw draw `r` with `0 ≤ r ≤ RAND_MAX` (`RAND_MAX` positive),
the coordinate `r / RAND_MAX * 2 - 1` lies in `[-1, 1]`; the draw `0` gives
`-1` and the draw `RAND_MAX` gives `1`. -/
theorem coordinate_range (RAND_MAX r : Nat) (hmax : 0 < RAND_MAX) (hr : r ≤ RAND_MAX) :
    (-1 ≤ coordinate RAND_MAX r ∧ coordinate RAND_MAX r ≤ 1) ∧
      coordinate RAND_MAX 0 = -1 ∧ coordinate RAND_MAX RAND_MAX = 1 := by
  have hpos : (0 : ℚ) < (RAND_MAX : ℚ) := by exact_mod_cast hmax
  have hle : (r : ℚ) ≤ (RAND_MAX : ℚ) := by exact_mod_cast hr
  have h0 : (0 : ℚ) ≤ (r : ℚ) / (RAND_MAX : ℚ) := by positivity
  have h1 : (r : ℚ) / (RAND_MAX : ℚ) ≤ 1 := (div_le_one hpos).mpr hle
  unfold coordinate
  refine ⟨⟨by linarith, by linarith⟩, by simp, ?_⟩
  rw [div_self (ne_of_gt hpos)]
  norm_num

/-- Witness for C17: `RAND_MAX = 2147483647` and the draw `12345`. -/
theorem coordinate_range_witness :
    (-1 ≤ coordinate 2147483647 12345 ∧ coordinate 2147483647 12345 ≤ 1) ∧
      coordinate 2147483647 0 = -1 ∧ coordinate 2147483647 2147483647 = 1 :=
  coordinate_range 2147483647 12345 (by decide) (by decide)

/-! ### calculate_pi_leibniz: distance to π -/

theorem calculate_pi_leibniz_sum (N : Nat) :
    calculate_pi_leibniz (N : Int) =
      4 * ∑ i in Finset.range N, (-1 : ℚ) ^ i / (2 * (i : ℚ) + 1) := by
  rw [calculate_pi_leibniz, Int.toNat_ofNat, leibnizLoop_nat N N le_rfl]
  ring

theorem leibniz_series_bound (N : Nat) :
    |(∑ i in Finset.range N, (-1 : ℝ) ^ i * (2 * (i : ℝ) + 1)⁻¹) - Real.pi / 4| ≤
      (2 * (N : ℝ) + 1)⁻¹ := by
  have hfl : Filter.Tendsto
      (fun n => ∑ i in Finset.range n, (-1 : ℝ) ^ i * (fun j : ℕ => (2 * (j : ℝ) + 1)⁻¹) i)
      Filter.atTop (nhds (Real.pi / 4)) := by
    have h := Real.tendsto_sum_pi_div_four
    simp only [div_eq_mul_inv] at h ⊢
    exact h
  have hfa : Antitone (fun j : ℕ => (2 * (j : ℝ) + 1)⁻¹) := by
    apply antitone_nat_of_succ_le
    intro n
    apply inv_anti₀
    · positivity
    · push_cast
      linarith
  rcases Nat.even_or_odd' N with ⟨k, hk | hk⟩
  · have hlo := hfa.alternating_series_le_tendsto hfl k
    have hhi := hfa.tendsto_le_alternating_series hfl k
    rw [Finset.sum_range_succ] at hhi
    simp only [pow_mul, neg_one_sq, one_pow, one_mul] at hhi
    subst hk
    rw [abs_le]
    constructor
    · simp only [Nat.cast_mul, Nat.cast_ofNat] at hhi ⊢
      linarith
    · have hpos : (0 : ℝ) ≤ (2 * ((2 * k : ℕ) : ℝ) + 1)⁻¹ := by positivity
      linarith
  · have hhi := hfa.tendsto_le_alternating_series hfl k
    have hlo := hfa.alternating_series_le_tendsto hfl (k + 1)
    have e : 2 * (k + 1) = (2 * k + 1) + 1 := by ring
    have hpow : (-1 : ℝ) ^ (2 * k + 1) = -1 := by
      rw [pow_succ, pow_mul]
      simp
    rw [e, Finset.sum_range_succ] at hlo
    simp only [hpow, neg_mul, one_mul] at hlo
    subst hk
    rw [abs_le]
    constructor
    · have hpos : (0 : ℝ) ≤ (2 * ((2 * k + 1 : ℕ) : ℝ) + 1)⁻¹ := by positivity
      linarith
    · linarith

theorem calculate_pi_leibniz_abs_le (N : Nat) :
    |((calculate_pi_leibniz (N : Int) : ℚ) : ℝ) - Real.pi| ≤ 4 / (2 * (N : ℝ) + 1) := by
  have h := leibniz_series_bound N
  rw [calculate_pi_leibniz_sum]
  push_cast
  simp only [div_eq_mul_inv] at h ⊢
  rw [abs_le] at h ⊢
  constructor <;> linarith [h.1, h.2]

/-- C15: for every `N ≥ 0`, `|calculate_pi_leibniz N - π| ≤ 4 / (2N+1)` in
exact arithmetic, and this envelope is strictly decreasing in `N`. -/
theorem calculate_pi_leibniz_error (N : Nat) :
    |((calculate_pi_leibniz (N : Int) : ℚ) : ℝ) - Real.pi| ≤ 4 / (2 * (N : ℝ) + 1) ∧
      (4 : ℝ) / (2 * ((N + 1 : ℕ) : ℝ) + 1) < 4 / (2 * (N : ℝ) + 1) := by
  refine ⟨calculate_pi_leibniz_abs_le N, ?_⟩
  apply div_lt_div_of_pos_left
  · norm_num
  · positivity
  · push_cast
    linarith

/-- C16: with `N = 10^(P+6)` iterations (as a mathematical integer) the
requested precision is reached, `|calculate_pi_leibniz N - π| < 10^(-P)`; this
holds for every `P`, in particular for every `P` in `[1,15]`. -/
theorem calculate_pi_leibniz_precision (P : Nat) :
    |((calculate_pi_leibniz ((10 ^ (P + 6) : ℕ) : Int) : ℚ) : ℝ) - Real.pi| <
      1 / 10 ^ P := by
  refine lt_of_le_of_lt (calculate_pi_leibniz_abs_le (10 ^ (P + 6))) ?_
  have hP : (0 : ℝ) < 10 ^ P := by positivity
  rw [div_lt_div_iff₀ (by positivity) hP]
  push_cast
  rw [pow_add]
  nlinarith

/-! ### calculate_pi_machin: the general form of the two sums -/

theorem stopIndexFrom_spec (x : ℚ) (fuel i : Nat) :
    i ≤ stopIndexFrom x fuel i ∧ stopIndexFrom x fuel i ≤ i + fuel ∧
      (∀ j, i ≤ j → j < stopIndexFrom x fuel i → cutoff < x ^ (2 * j + 1)) ∧
      (stopIndexFrom x fuel i < i + fuel →
        x ^ (2 * stopIndexFrom x fuel i + 1) ≤ cutoff) := by
  induction fuel generalizing i with
  | zero =>
    simp only [stopIndexFrom]
    exact ⟨le_rfl, le_rfl, fun j h1 h2 => absurd h2 (by omega), fun h => absurd h (by omega)⟩
  | succ fuel ih =>
    rw [stopIndexFrom]
    by_cases h : x ^ (2 * i + 1) ≤ cutoff
    · rw [if_pos h]
      exact ⟨le_rfl, by omega, fun j h1 h2 => absurd h2 (by omega), fun _ => h⟩
    · rw [if_neg h]
      obtain ⟨a, b, c, d⟩ := ih (i + 1)
      refine ⟨by omega, by omega, ?_, fun hlt => d (by omega)⟩
      intro j h1 h2
      rcases Nat.eq_or_lt_of_le h1 with e | e
      · rw [← e]
        exact not_le.mp h
      · exact c j e h2

theorem arctanBody_state (x : ℚ) (i : Nat) :
    arctanBody (x ^ 2) { i := i, acc := arctanSeries x i, term := x ^ (2 * i + 1) } =
      { i := ((i + 1 : Nat) : Int), acc := arctanSeries x (i + 1),
        term := x ^ (2 * (i + 1) + 1) } := by
  rw [← arctanBody_iterate x i, ← arctanBody_iterate x (i + 1), Function.iterate_succ_apply']

theorem arctanLoop_from (x : ℚ) (hx : 0 ≤ x) (N fuel i : Nat) (h : i + fuel = N) :
    arctanLoop (x ^ 2) (N : Int) fuel
        { i := i, acc := arctanSeries x i, term := x ^ (2 * i + 1) } =
      { i := stopIndexFrom x fuel i, acc := arctanSeries x (stopIndexFrom x fuel i),
        term := x ^ (2 * stopIndexFrom x fuel i + 1) } := by
  induction fuel generalizing i with
  | zero => rfl
  | succ fuel ih =>
    have habs : |x ^ (2 * i + 1)| = x ^ (2 * i + 1) := abs_of_nonneg (pow_nonneg hx _)
    rw [arctanLoop, stopIndexFrom]
    by_cases hc : x ^ (2 * i + 1) ≤ cutoff
    · have hstop : ¬ (((i : Nat) : Int) < (N : Int) ∧ |x ^ (2 * i + 1)| > cutoff) := by
        rw [habs]
        exact fun hh => absurd hc (not_le.mpr hh.2)
      rw [if_neg hstop, if_pos hc]
    · have hgo : ((i : Nat) : Int) < (N : Int) ∧ |x ^ (2 * i + 1)| > cutoff := by
        rw [habs]
        exact ⟨by omega, not_le.mp hc⟩
      rw [if_pos hgo, if_neg hc, arctanBody_state]
      exact ih (i + 1) (by omega)

theorem arctanLoop_stopIndex (x : ℚ) (hx : 0 ≤ x) (N : Nat) :
    arctanLoop (x ^ 2) (N : Int) N (arctanInit x) =
      { i := stopIndex x N, acc := arctanSeries x (stopIndex x N),
        term := x ^ (2 * stopIndex x N + 1) } := by
  have h := arctanLoop_from x hx N N 0 (by omega)
  have e : arctanInit x =
      { i := ((0 : Nat) : Int), acc := arctanSeries x 0, term := x ^ (2 * 0 + 1) } := by
    simp [arctanInit, arctanSeries]
  rw [e, h]
  rfl

theorem stopIndex_spec (x : ℚ) (N : Nat) :
    stopIndex x N ≤ N ∧ (∀ i, i < stopIndex x N → cutoff < x ^ (2 * i + 1)) ∧
      (stopIndex x N < N → x ^ (2 * stopIndex x N + 1) ≤ cutoff) := by
  obtain ⟨_, b, c, d⟩ := stopIndexFrom_spec x N 0
  refine ⟨by simpa using b, fun i hi => c i (Nat.zero_le i) hi, fun h => d (by simpa using h)⟩

theorem arctanLoop_prefix_state (x : ℚ) (hx : 0 ≤ x) (N i : Nat) (hi : i ≤ stopIndex x N) :
    arctanLoop (x ^ 2) (N : Int) i (arctanInit x) =
      { i := i, acc := arctanSeries x i, term := x ^ (2 * i + 1) } := by
  obtain ⟨hle, habove, _⟩ := stopIndex_spec x N
  rw [arctanLoop_of_cond, arctanBody_iterate]
  intro j hj
  rw [arctanBody_iterate]
  have habs : |x ^ (2 * j + 1)| = x ^ (2 * j + 1) := abs_of_nonneg (pow_nonneg hx _)
  refine ⟨?_, ?_⟩
  · simp only
    omega
  · simp only
    rw [habs]
    exact habove j (by omega)

theorem stopIndex_fifth (N : Nat) (h : 11 ≤ N) : stopIndex (1 / 5) N = 11 := by
  have h1 := arctanLoop_stopIndex (1 / 5) (by norm_num) N
  have hN : N = 11 + (N - 11) := by omega
  have h2 := arctanLoop_fifth (N : Int) (N - 11) (by omega)
  rw [← hN, h1] at h2
  have h3 := congrArg ArctanState.i h2
  simp only at h3
  exact_mod_cast h3

theorem stopIndex_239th (N : Nat) (h : 3 ≤ N) : stopIndex (1 / 239) N = 3 := by
  have h1 := arctanLoop_stopIndex (1 / 239) (by norm_num) N
  have hN : N = 3 + (N - 3) := by omega
  have h2 := arctanLoop_239th (N : Int) (N - 3) (by omega)
  rw [← hN, h1] at h2
  have h3 := congrArg ArctanState.i h2
  simp only at h3
  exact_mod_cast h3

theorem castLongLong_pow10_int (e : Int) (he0 : 0 ≤ e) (he : e ≤ 18) :
    castLongLong (pow10 e) = ((10 ^ e.toNat : Nat) : Int) := by
  have hn : e.toNat ≤ 18 := by omega
  have hlt : (10 : Int) ^ e.toNat < 2 ^ 63 :=
    calc (10 : Int) ^ e.toNat ≤ 10 ^ 18 := pow_le_pow_right₀ (by norm_num) hn
      _ < 2 ^ 63 := by norm_num
  have hcast : e = (e.toNat : Int) := by omega
  conv_lhs => rw [hcast]
  rw [castLongLong_pow10 _ hlt]
  push_cast
  rfl

theorem calculate_pi_machin_formula (P : Int) (h1 : 1 ≤ P) (h2 : P ≤ 16) :
    calculate_pi_machin P = machinFormula P := by
  have e5 : (1 / 25 : ℚ) = (1 / 5) ^ 2 := by norm_num
  have e239 : (1 / (239 * 239) : ℚ) = (1 / 239) ^ 2 := by norm_num
  unfold calculate_pi_machin machinFormula
  simp only [castLongLong_pow10_int (P + 2) (by omega) (by omega), Int.toNat_ofNat, e5, e239]
  rw [arctanLoop_stopIndex (1 / 5) (by norm_num), arctanLoop_stopIndex (1 / 239) (by norm_num)]

theorem calculate_pi_machin_17 : calculate_pi_machin 17 = 0 := by
  have hN : castLongLong (pow10 (17 + 2)) = -8446744073709551616 := by
    have h := castLongLong_pow10_wrap 19
    rw [toLongLong_pow10_19] at h
    exact_mod_cast h
  have hfuel : (-8446744073709551616 : Int).toNat = 0 := by decide
  unfold calculate_pi_machin
  simp only [hN, hfuel, arctanLoop, arctanInit]
  norm_num

theorem machinFormula_17 : 3 < machinFormula 17 := by
  have hexp : ((17 : Int) + 2).toNat = 19 := by decide
  unfold machinFormula
  rw [hexp, stopIndex_fifth _ (by norm_num), stopIndex_239th _ (by norm_num)]
  have h := machin_value_bounds.1
  have h3 : (3 : ℚ) < 314159265358979323847 / 10 ^ 20 - 1 / 10 ^ 15 := by norm_num
  exact lt_trans h3 h

/-- C14 as stated is false: at `P = 17` the bound `10^19` does not fit in
`long long`, the stored bound is negative, neither loop makes a pass and the
result is `0`, not the value of the formula. -/
theorem calculate_pi_machin_bound_overflow :
    ¬ ∀ P : Int, 1 ≤ P → calculate_pi_machin P = machinFormula P := by
  intro h
  have h17 := h 17 (by decide)
  have hpos := machinFormula_17
  rw [← h17, calculate_pi_machin_17] at hpos
  exact absurd hpos (by norm_num)

/-- C14 (amended): for every precision `P` with `1 ≤ P ≤ 16` (those whose
bound `N = 10^(P+2)` fits in `long long`), `calculate_pi_machin P` is
`4 * (4 * A(1/5) - A(1/239))`, where `A(x)` sums the first `k(x)` terms
`(-1)^i x^(2i+1) / (2i+1)` and `k(x)` is the smaller of `N` and the least `i`
with `x^(2i+1) ≤ 10^-15`; at the start of step `i ≤ k(x)` the counter is `i`,
the sum holds `i` terms and `term` is `x^(2i+1)`; the loop leaves at `k(x)`. -/
theorem calculate_pi_machin_series (P : Int) (h1 : 1 ≤ P) (h2 : P ≤ 16) :
    calculate_pi_machin P = machinFormula P ∧
      castLongLong (pow10 (P + 2)) = ((10 ^ (P + 2).toNat : Nat) : Int) ∧
      (∀ (x : ℚ) (N : Nat),
        stopIndex x N ≤ N ∧ (∀ i, i < stopIndex x N → cutoff < x ^ (2 * i + 1)) ∧
          (stopIndex x N < N → x ^ (2 * stopIndex x N + 1) ≤ cutoff)) ∧
      (∀ x : ℚ, 0 ≤ x → ∀ N i : Nat, i ≤ stopIndex x N →
        arctanLoop (x ^ 2) (N : Int) i (arctanInit x) =
          { i := i, acc := arctanSeries x i, term := x ^ (2 * i + 1) }) ∧
      (∀ x : ℚ, 0 ≤ x → ∀ N : Nat,
        arctanLoop (x ^ 2) (N : Int) N (arctanInit x) =
          { i := stopIndex x N, acc := arctanSeries x (stopIndex x N),
            term := x ^ (2 * stopIndex x N + 1) }) :=
  ⟨calculate_pi_machin_formula P h1 h2,
    castLongLong_pow10_int (P + 2) (by omega) (by omega),
    stopIndex_spec,
    fun x hx N i hi => arctanLoop_prefix_state x hx N i hi,
    fun x hx N => arctanLoop_stopIndex x hx N⟩

/-- Witness for C14 (amended) at the largest precision covered, `P = 16`. -/
theorem calculate_pi_machin_series_witness :
    calculate_pi_machin 16 = machinFormula 16 ∧
      castLongLong (pow10 (16 + 2)) = ((10 ^ ((16 : Int) + 2).toNat : Nat) : Int) ∧
      (∀ (x : ℚ) (N : Nat),
        stopIndex x N ≤ N ∧ (∀ i, i < stopIndex x N → cutoff < x ^ (2 * i + 1)) ∧
          (stopIndex x N < N → x ^ (2 * stopIndex x N + 1) ≤ cutoff)) ∧
      (∀ x : ℚ, 0 ≤ x → ∀ N i : Nat, i ≤ stopIndex x N →
        arctanLoop (x ^ 2) (N : Int) i (arctanInit x) =
          { i := i, acc := arctanSeries x i, term := x ^ (2 * i + 1) }) ∧
      (∀ x : ℚ, 0 ≤ x → ∀ N : Nat,
        arctanLoop (x ^ 2) (N : Int) N (arctanInit x) =
          { i := stopIndex x N, acc := arctanSeries x (stopIndex x N),
            term := x ^ (2 * stopIndex x N + 1) }) :=
  calculate_pi_machin_series 16 (by decide) (by decide)

end PiCalculator
